import Mathlib

/-!
Verification of the MCP client runtime of this repository
(`src/handlers/dynamic_mcp_client.py`, `src/config/mcp_config.py`).

The Python code is shallowly embedded: JSON values parsed by `json.loads`
become the inductive `Json`; Python dicts become association lists with
insertion-order update semantics; subprocess I/O is made explicit by passing
the stream of inbound messages (resp. the server's response) as an argument
and returning the messages written outbound.
-/

set_option maxHeartbeats 1000000

namespace MCP

/-- JSON values as produced by `json.loads` on one line of the wire. -/
inductive Json where
  | null
  | bool (b : Bool)
  | num (n : Int)
  | str (s : String)
  | arr (xs : List Json)
  | obj (fields : List (String × Json))

/-- First-match association-list lookup: `d[k]` on a Python dict whose keys
are unique (every dict the code builds has unique keys). -/
def dictGet {α : Type} (d : List (String × α)) (k : String) : Option α :=
  match d with
  | [] => none
  | p :: rest => if p.1 = k then some p.2 else dictGet rest k

/-- Last-match association-list lookup: the value a key ends up with when the
pairs are inserted left to right into a Python dict (later wins). -/
def dictGetLast {α : Type} (d : List (String × α)) (k : String) : Option α :=
  d.foldl (fun acc p => if p.1 = k then some p.2 else acc) none

/-- `d.get(k)` on a parsed JSON object; `None` when `j` is not an object or
the key is absent.  Duplicate keys collapse to the last, as `json.loads` does. -/
def Json.getField (j : Json) (k : String) : Option Json :=
  match j with
  | .obj fields => dictGetLast fields k
  | _ => none

/-- Python truthiness of a parsed JSON value, as used by
`if response.get("method")`: `None`, `False`, `0`, `""`, `[]`, `{}` are falsy. -/
def Json.truthy : Json → Bool
  | .null => false
  | .bool b => b
  | .num n => n != 0
  | .str s => s ≠ ""
  | .arr xs => !xs.isEmpty
  | .obj fields => !fields.isEmpty

/-- Python `repr()` of a parsed JSON value (string escaping inside the quotes
is not reproduced; no theorem below depends on the rendering of a container). -/
def pyRepr : Json → String
  | .null => "None"
  | .bool true => "True"
  | .bool false => "False"
  | .num n => toString n
  | .str s => "'" ++ s ++ "'"
  | .arr xs =>
      "[" ++ String.intercalate ", " (xs.attach.map (fun x => pyRepr x.1)) ++ "]"
  | .obj fields =>
      "\x7b" ++
        String.intercalate ", "
          (fields.attach.map (fun p => "'" ++ p.1.1 ++ "': " ++ pyRepr p.1.2)) ++
      "\x7d"
  decreasing_by
  · obtain ⟨x, hx⟩ := x
    have := List.sizeOf_lt_of_mem hx
    simp only [Json.arr.sizeOf_spec] at *
    omega
  · obtain ⟨⟨k, v⟩, hp⟩ := p
    have := List.sizeOf_lt_of_mem hp
    simp only [Json.obj.sizeOf_spec, Prod.mk.sizeOf_spec] at *
    omega

/-- Python `str()` of a parsed JSON value, as interpolated by f-strings:
identical to `repr` except that a string renders without quotes. -/
def pyStr (j : Json) : String :=
  match j with
  | .str s => s
  | _ => pyRepr j

/-- `json.dumps(j)`-style serialization (compact rendering; `indent=2`
whitespace and string escaping are not reproduced — the code only ever
surfaces this string opaquely to the caller). -/
def jsonDumps : Json → String
  | .null => "null"
  | .bool true => "true"
  | .bool false => "false"
  | .num n => toString n
  | .str s => "\"" ++ s ++ "\""
  | .arr xs =>
      "[" ++ String.intercalate ", " (xs.attach.map (fun x => jsonDumps x.1)) ++ "]"
  | .obj fields =>
      "\x7b" ++
        String.intercalate ", "
          (fields.attach.map (fun p => "\"" ++ p.1.1 ++ "\": " ++ jsonDumps p.1.2)) ++
      "\x7d"
  decreasing_by
  · obtain ⟨x, hx⟩ := x
    have := List.sizeOf_lt_of_mem hx
    simp only [Json.arr.sizeOf_spec] at *
    omega
  · obtain ⟨⟨k, v⟩, hp⟩ := p
    have := List.sizeOf_lt_of_mem hp
    simp only [Json.obj.sizeOf_spec, Prod.mk.sizeOf_spec] at *
    omega

/-! ## Wire loop (`MCPServerConnection._send_request` / `_handle_server_request`)

The Python loop reads stdout lines while waiting for the response to its own
request.  Every request the client sends carries `"id": str(uuid.uuid4())`, a
string, so the pending request id is modelled as a `String`.  The inbound
stream (already parsed, one `Json` per line) is passed explicitly; the replies
the loop writes to the server's stdin are returned alongside the result. -/

/-- `response.get("method") and "id" in response`: the message is a
server-initiated request (truthy `method` field, and an `id` key present). -/
def isServerRequest (msg : Json) : Bool :=
  (match msg.getField "method" with
   | some v => v.truthy
   | none => false)
  &&
  (match msg with
   | .obj fields => fields.any (fun p => p.1 = "id")
   | _ => false)

/-- `_handle_server_request`: the reply written back for a server-initiated
request — `roots/list` is answered with an empty roots list, anything else
with a JSON-RPC -32601 "method not found" error. -/
def serverRequestReply (request : Json) : Json :=
  let request_id := (request.getField "id").getD Json.null
  match request.getField "method" with
  | some (Json.str "roots/list") =>
      Json.obj [("jsonrpc", Json.str "2.0"), ("id", request_id),
                ("result", Json.obj [("roots", Json.arr [])])]
  | m =>
      Json.obj [("jsonrpc", Json.str "2.0"), ("id", request_id),
                ("error", Json.obj
                  [("code", Json.num (-32601)),
                   ("message", Json.str
                     ("Method not found: " ++ pyStr (m.getD Json.null)))])]

/-- `response.get("id") == request_id` where `request_id` is the string id of
the pending outbound request: true exactly when the message carries that
string as its `id` (in Python a non-string id never equals a string). -/
def idMatches (msg : Json) (request_id : String) : Bool :=
  match msg.getField "id" with
  | some (Json.str s) => s = request_id
  | _ => false

/-- The read loop of `_send_request`, over the parsed inbound stream: an
object message with a truthy `method` and an `id` is answered via
`serverRequestReply` and the loop continues; an object message whose id
equals the pending request id is returned to the caller; any other object
message is skipped.  A line that parses to a non-object value makes
`response.get("method")` raise `AttributeError`, which the surrounding
`except` turns into a `None` result for the whole request — the replies
already written stay written.  An exhausted stream (`readline` returning "")
also yields `none`.  Returns the result together with the replies written to
the server, in write order. -/
def sendRequestLoop (request_id : String) : List Json → Option Json × List Json
  | [] => (none, [])
  | msg :: rest =>
      match msg with
      | Json.obj _ =>
          if isServerRequest msg then
            let r := sendRequestLoop request_id rest
            (r.1, serverRequestReply msg :: r.2)
          else if idMatches msg request_id then
            (some msg, [])
          else
            sendRequestLoop request_id rest
      | _ => (none, [])

/-! ## Data model (`MCPTool`, `MCPResource`, `MCPServerConnection`) -/

/-- An MCP tool discovered from a server (`@dataclass MCPTool`). -/
structure MCPTool where
  name : String
  description : String
  inputSchema : Json
  server_name : String

/-- An MCP resource discovered from a server (`@dataclass MCPResource`). -/
structure MCPResource where
  uri : String
  name : String
  description : Option String
  mimeType : Option String
  server_name : String

/-- The state of one `MCPServerConnection`: its config name, the subprocess
handle (`none` after termination or failed spawn), the discovered tool and
resource maps, and the `_initialized` flag. -/
structure MCPServerConnection where
  name : String
  process : Option Unit
  tools : List (String × MCPTool)
  resources : List (String × MCPResource)
  initialized : Bool

/-- Python iteration `for item in x` over a parsed JSON value: a list yields
its elements, a dict its keys, a string its characters; other values raise
`TypeError` (modelled as `none`, which `call_tool` turns into its generic
exception result). -/
def pyIter : Json → Option (List Json)
  | .arr xs => some xs
  | .obj fields => some (fields.map (fun p => Json.str p.1))
  | .str s => some (s.toList.map (fun c => Json.str (String.mk [c])))
  | _ => none

/-- Python `"k" in x` on a parsed JSON value: key membership for a dict,
substring test for a string, element membership for a list (an element equals
the string `k` only if it is that string); other values raise `TypeError`
(modelled as `none`). -/
def pyContains (x : Json) (k : String) : Option Bool :=
  match x with
  | .obj fields => some (fields.any (fun p => p.1 = k))
  | .str s => some (decide (k.toList <:+: s.toList))
  | .arr xs => some (xs.any (fun e => match e with
      | .str s => s = k
      | _ => false))
  | _ => none

/-- The `formatted_content` loop of `call_tool`: items whose `type` field is
`"text"` contribute their `text` field (default `""`).  A non-dict item
raises `AttributeError` at `item.get`, and a non-string `text` value raises
`TypeError` at `"\n".join`; both are modelled as `none` (the surrounding
`except` turns them into the generic exception result). -/
def collectTexts : List Json → Option (List String)
  | [] => some []
  | item :: rest =>
      match item with
      | .obj fields =>
          match (match Json.getField (.obj fields) "type" with
                 | some (Json.str "text") => true
                 | _ => false) with
          | true =>
              match (Json.getField (.obj fields) "text").getD (Json.str "") with
              | .str s => (collectTexts rest).map (fun ts => s :: ts)
              | _ => none
          | false => collectTexts rest
      | _ => none

/-- `MCPServerConnection.call_tool(tool_name, arguments)`.  The RPC exchange
is made explicit: `response` is what `_send_request` returned for the
`tools/call` request (`none` for a closed stream / request failure).  The
`arguments` only flow into the request, never into the result, and are
omitted.  Exceptions escaping inside the `try` are caught and rendered as
`(False, "Tool execution error: ...")`; the exact rendering of the Python
exception text is not reproduced, so those branches are modelled by
`pyExceptionResult`. -/
def pyExceptionResult : Bool × String := (false, "Tool execution error")

/-- Interpretation of the `tools/call` response by `call_tool`, after the
initialized/known-tool guard passed.  Mirrors the branch order of the source:
no response, then `error` field, then `result` field, then fallthrough. -/
def interpretCallResponse (response : Option Json) : Bool × String :=
  match response with
  | none => (false, "No response from server")
  | some resp =>
      match resp.getField "error" with
      | some (Json.obj errFields) =>
          (false, "Server error: " ++
            pyStr ((dictGetLast errFields "message").getD (Json.str "Unknown error")))
      | some _ => pyExceptionResult
      | none =>
          match resp.getField "result" with
          | some result =>
              match pyContains result "content" with
              | none => pyExceptionResult
              | some true =>
                  match pyIter ((result.getField "content").getD Json.null) with
                  | none => pyExceptionResult
                  | some items =>
                      match collectTexts items with
                      | none => pyExceptionResult
                      | some texts => (true, String.intercalate "\n" texts)
              | some false => (true, jsonDumps result)
          | none => (false, "No result in response")

/-- `call_tool` itself: fails immediately (no RPC is represented or needed)
when the connection is not initialized or the tool is unknown to it;
otherwise interprets the response to the `tools/call` request. -/
def MCPServerConnection.call_tool (conn : MCPServerConnection)
    (tool_name : String) (response : Option Json) : Bool × String :=
  if !conn.initialized || (dictGet conn.tools tool_name).isNone then
    (false, "Tool " ++ tool_name ++ " not available on server " ++ conn.name)
  else
    interpretCallResponse response

/-! ## Registry (`DynamicMCPClient`) -/

/-- `d[k] = v` on a Python dict modelled as an assoc list: replace in place
when the key exists (position preserved), else append. -/
def dictInsert {α : Type} (d : List (String × α)) (k : String) (v : α) :
    List (String × α) :=
  if d.any (fun p => p.1 = k) then
    d.map (fun p => if p.1 = k then (k, v) else p)
  else
    d ++ [(k, v)]

/-- `d.update(new)` on a Python dict: insert each pair of `new` in order;
existing keys are overwritten in place, later pairs win. -/
def dictUpdate {α : Type} (d new : List (String × α)) : List (String × α) :=
  new.foldl (fun acc p => dictInsert acc p.1 p.2) d

/-- The state of the `DynamicMCPClient` registry: the connection map, the two
aggregated catalogs, and the `_initialized` flag. -/
structure DynamicMCPClient where
  server_connections : List (String × MCPServerConnection)
  available_tools : List (String × MCPTool)
  available_resources : List (String × MCPResource)
  initialized : Bool

/-- A freshly constructed `DynamicMCPClient`: empty maps, flag down. -/
def freshClient : DynamicMCPClient :=
  { server_connections := [], available_tools := [],
    available_resources := [], initialized := false }

/-- `DynamicMCPClient.execute_tool(tool_name, parameters)`.  The parameters
only flow into the forwarded request and are omitted; `response` is the
server's answer to the eventual `tools/call` RPC, threaded through to
`call_tool`. -/
def DynamicMCPClient.execute_tool (client : DynamicMCPClient)
    (tool_name : String) (response : Option Json) : Bool × String :=
  match dictGet client.available_tools tool_name with
  | none => (false, "Tool " ++ tool_name ++ " not found")
  | some tool =>
      match dictGet client.server_connections tool.server_name with
      | none => (false, "Server " ++ tool.server_name ++ " not connected")
      | some connection =>
          if !connection.initialized then
            (false, "Server " ++ tool.server_name ++ " not connected")
          else
            connection.call_tool tool_name response

/-- What one connection attempt produces in the environment: whether
`connect()` returned `True`, and the tool/resource maps discovery populated
on the connection object along the way. -/
structure ConnectOutcome where
  ok : Bool
  tools : List (String × MCPTool)
  resources : List (String × MCPResource)

/-- The `MCPServerConnection` object as it stands after `connect()` resolved
with the given outcome: `_initialized` is set exactly on success
(`_connect_stdio` sets it only after discovery completes), and a failed
spawn leaves no live process. -/
def runConnect (config_name : String) (o : ConnectOutcome) : MCPServerConnection :=
  { name := config_name
    process := if o.ok then some () else none
    tools := o.tools
    resources := o.resources
    initialized := o.ok }

/-- `MCPConfigManager`-side server table entry used by the registry: only the
name key and the enabled flag matter to `initialize`'s control flow; the
connection attempt itself is summarised by the environment's
`ConnectOutcome`. -/
structure ServerEntry where
  name : String
  enabled : Bool
  outcome : ConnectOutcome

/-- `get_enabled_servers()`: the enabled subset, in table order. -/
def enabledServers (servers : List ServerEntry) : List ServerEntry :=
  servers.filter (fun s => s.enabled)

/-- The connection objects `initialize` creates and stores, one per enabled
server, in table order, each holding its settled connect outcome. -/
def initConnections (servers : List ServerEntry) :
    List (String × MCPServerConnection) :=
  (enabledServers servers).map (fun s => (s.name, runConnect s.name s.outcome))

/-- `DynamicMCPClient.initialize()`.  For every enabled server a connection
object is stored in `server_connections` (before connecting, so failed
connections remain in the map, uninitialized); after all attempts settle,
the tool and resource catalogs are updated from every connection whose
`_initialized` flag is true, in connection-map order; the registry's own
flag is then set unconditionally, and the returned Bool is
`success_count > 0`. -/
def DynamicMCPClient.initClient (client : DynamicMCPClient)
    (servers : List ServerEntry) : DynamicMCPClient × Bool :=
  let enabled := enabledServers servers
  let conns := initConnections servers
  let server_connections := dictUpdate client.server_connections conns
  let available_tools := server_connections.foldl
    (fun acc p => if p.2.initialized then dictUpdate acc p.2.tools else acc)
    client.available_tools
  let available_resources := server_connections.foldl
    (fun acc p => if p.2.initialized then dictUpdate acc p.2.resources else acc)
    client.available_resources
  let success_count := (enabled.filter (fun s => s.outcome.ok)).length
  ({ server_connections := server_connections
     available_tools := available_tools
     available_resources := available_resources
     initialized := true },
   decide (0 < success_count))

/-- A Python dict value handed across the `get_available_tools` /
`get_available_resources` boundary, with its aliasing made explicit:
`aliasesInternal` records whether the object is the registry's own dict
(it is not: the getters return `self.available_tools.copy()`; returning
`self.available_tools` itself would set it). -/
structure DictRef (α : Type) where
  value : List (String × α)
  aliasesInternal : Bool

/-- `DynamicMCPClient.get_available_tools()`: lazily runs `initialize()` when
the flag is down, then returns `self.available_tools.copy()`.  The third
component records whether this call triggered initialization. -/
def DynamicMCPClient.get_available_tools (client : DynamicMCPClient)
    (servers : List ServerEntry) : DynamicMCPClient × DictRef MCPTool × Bool :=
  if !client.initialized then
    let st := (client.initClient servers).1
    (st, { value := st.available_tools, aliasesInternal := false }, true)
  else
    (client, { value := client.available_tools, aliasesInternal := false }, false)

/-- `DynamicMCPClient.get_available_resources()`: same shape over the
resource catalog. -/
def DynamicMCPClient.get_available_resources (client : DynamicMCPClient)
    (servers : List ServerEntry) :
    DynamicMCPClient × DictRef MCPResource × Bool :=
  if !client.initialized then
    let st := (client.initClient servers).1
    (st, { value := st.available_resources, aliasesInternal := false }, true)
  else
    (client, { value := client.available_resources, aliasesInternal := false },
     false)

/-- A caller mutating the mapping returned by `get_available_tools` (any
transformation `f` of its contents): the registry's internal catalog changes
with it exactly when the returned object aliases the internal dict. -/
def mutateReturnedTools (client : DynamicMCPClient) (r : DictRef MCPTool)
    (f : List (String × MCPTool) → List (String × MCPTool)) :
    DynamicMCPClient × DictRef MCPTool :=
  if r.aliasesInternal then
    ({ client with available_tools := f r.value },
     { value := f r.value, aliasesInternal := true })
  else
    (client, { value := f r.value, aliasesInternal := false })

/-- Same mutation model for the resource catalog. -/
def mutateReturnedResources (client : DynamicMCPClient) (r : DictRef MCPResource)
    (f : List (String × MCPResource) → List (String × MCPResource)) :
    DynamicMCPClient × DictRef MCPResource :=
  if r.aliasesInternal then
    ({ client with available_resources := f r.value },
     { value := f r.value, aliasesInternal := true })
  else
    (client, { value := f r.value, aliasesInternal := false })

/-- `MCPServerConnection.disconnect()`: terminate the process if one is live
(grace period, then kill — OS effects not modelled), set the handle to
`None`, and clear `_initialized` unconditionally. -/
def MCPServerConnection.disconnect (conn : MCPServerConnection) :
    MCPServerConnection :=
  { conn with process := none, initialized := false }

/-- `DynamicMCPClient.cleanup()`: disconnect every connection, then clear the
connection map, both catalogs, and the flag.  The disconnected connection
objects are returned so their final state can be inspected. -/
def DynamicMCPClient.cleanup (client : DynamicMCPClient) :
    DynamicMCPClient × List MCPServerConnection :=
  ({ server_connections := [], available_tools := [],
     available_resources := [], initialized := false },
   client.server_connections.map (fun p => p.2.disconnect))

/-- `capability_patterns` table of `has_capability`, verbatim. -/
def capability_patterns : List (String × List String) :=
  [("weather", ["forecast", "weather", "alerts", "temperature", "climate"]),
   ("math", ["add", "sub", "multiply", "calculate", "solve", "equation"]),
   ("search", ["search", "find", "lookup"]),
   ("filesystem", ["list_files", "read_file", "write_file", "file"]),
   ("database", ["query", "table", "sql", "database"]),
   ("usda", ["food", "nutrition", "usda"]),
   ("food", ["food", "nutrition", "usda"]),
   ("nutrition", ["food", "nutrition", "usda"])]

/-- Python `pat in hay`: substring test. -/
def strContains (hay pat : String) : Bool :=
  decide (pat.toList <:+: hay.toList)

/-- `DynamicMCPClient.has_capability(capability)`: keyword lookup through
`capability_patterns` over the aggregated tool names, with a substring
fallback on the capability string itself. -/
def DynamicMCPClient.has_capability (client : DynamicMCPClient)
    (capability : String) : Bool :=
  let capability_lower := capability.toLower
  (match dictGet capability_patterns capability_lower with
   | some patterns =>
       client.available_tools.any
         (fun t => patterns.any (fun pat => strContains t.1.toLower pat))
   | none => false)
  ||
  client.available_tools.any
    (fun t => strContains t.1.toLower capability_lower)

/-! ## Configuration (`src/config/mcp_config.py`)

`export_config` renders `{"servers": {name: server.to_dict()}}` through
`json.dumps`, and `import_config` parses with `json.loads` before rebuilding
`MCPServerConfig` entries via `from_dict`.  The string codec is Python's
`json` standard library (external to this repository), for which
`loads(dumps(x)) = x` on parsed-JSON values; the embedding therefore works at
the `Json`-value level and verifies the repository's own layer,
`to_dict`/`from_dict` and the `servers` envelope. -/

/-- `MCPTransportType` enum. -/
inductive MCPTransportType where
  | stdio
  | sse
  | http
  deriving DecidableEq

/-- `.value` of the enum member. -/
def MCPTransportType.value : MCPTransportType → String
  | .stdio => "stdio"
  | .sse => "sse"
  | .http => "http"

/-- `MCPTransportType(s)`: enum lookup by value; `ValueError` for any other
string is `none` (caught by `import_config`, which then returns `False`). -/
def MCPTransportType.ofValue : String → Option MCPTransportType
  | "stdio" => some .stdio
  | "sse" => some .sse
  | "http" => some .http
  | _ => none

/-- `@dataclass MCPServerConfig`, after `__post_init__` replaced `None`
args/env with empty containers. -/
structure MCPServerConfig where
  name : String
  command : String
  args : List String
  env : List (String × String)
  transport : MCPTransportType
  url : Option String
  enabled : Bool
  description : Option String
  deriving DecidableEq

/-- Encoding of an optional string field under `asdict`/`json.dumps`:
`None` becomes JSON null. -/
def encOptStr : Option String → Json
  | none => Json.null
  | some s => Json.str s

/-- `MCPServerConfig.to_dict()`: `asdict(self)` in dataclass field order,
with the transport enum replaced in place by its string value. -/
def MCPServerConfig.to_dict (c : MCPServerConfig) : Json :=
  Json.obj
    [("name", Json.str c.name),
     ("command", Json.str c.command),
     ("args", Json.arr (c.args.map Json.str)),
     ("env", Json.obj (c.env.map (fun p => (p.1, Json.str p.2)))),
     ("transport", Json.str c.transport.value),
     ("url", encOptStr c.url),
     ("enabled", Json.bool c.enabled),
     ("description", encOptStr c.description)]

/-- Decoding of a JSON value into a list of strings (an `args` value as
emitted by `to_dict`; JSON null decodes to the empty list because
`__post_init__` replaces `None` with `[]`).  Python's `from_dict` stores the
parsed value unchecked; the typed model refuses shapes `to_dict` cannot
emit. -/
def decodeStrings : List Json → Option (List String)
  | [] => some []
  | Json.str s :: rest => (decodeStrings rest).map (fun ss => s :: ss)
  | _ => none

def decStrList : Json → Option (List String)
  | Json.null => some []
  | Json.arr xs => decodeStrings xs
  | _ => none

/-- Decoding of a JSON value into a string-to-string map (an `env` value as
emitted by `to_dict`; null decodes to the empty map via `__post_init__`). -/
def decodePairs : List (String × Json) → Option (List (String × String))
  | [] => some []
  | (k, Json.str v) :: rest => (decodePairs rest).map (fun ps => (k, v) :: ps)
  | _ => none

def decStrMap : Json → Option (List (String × String))
  | Json.null => some []
  | Json.obj fields => decodePairs fields
  | _ => none

/-- Decoding of an optional-string field (`url` / `description`). -/
def decOptStr : Json → Option (Option String)
  | Json.null => some none
  | Json.str s => some (some s)
  | _ => none

/-- `MCPServerConfig.from_dict(data)`: converts the `transport` value back
through the enum (a bad value raises, modelled as `none`) and rebuilds the
dataclass from the remaining fields.  Python passes the field values through
untyped; the typed embedding decodes exactly the shapes `to_dict` emits. -/
def MCPServerConfig.from_dict (j : Json) : Option MCPServerConfig :=
  match j with
  | Json.obj fields => do
      let name ← dictGetLast fields "name" >>= fun v =>
        match v with | Json.str s => some s | _ => none
      let command ← dictGetLast fields "command" >>= fun v =>
        match v with | Json.str s => some s | _ => none
      let args ← dictGetLast fields "args" >>= decStrList
      let env ← dictGetLast fields "env" >>= decStrMap
      let transport ← dictGetLast fields "transport" >>= fun v =>
        match v with | Json.str s => MCPTransportType.ofValue s | _ => none
      let url ← dictGetLast fields "url" >>= decOptStr
      let enabled ← dictGetLast fields "enabled" >>= fun v =>
        match v with | Json.bool b => some b | _ => none
      let description ← dictGetLast fields "description" >>= decOptStr
      some { name := name, command := command, args := args, env := env,
             transport := transport, url := url, enabled := enabled,
             description := description }
  | _ => none

/-- `MCPConfigManager.export_config()` up to `json.dumps`: the
`{"servers": {name: to_dict}}` envelope over the manager's server table. -/
def exportConfig (servers : List (String × MCPServerConfig)) : Json :=
  Json.obj
    [("servers", Json.obj (servers.map (fun p => (p.1, p.2.to_dict))))]

/-- The dict comprehension of `import_config`: rebuild each entry through
`from_dict`; any failure raises out of the comprehension (the whole import
fails). -/
def decodeServerTable : List (String × Json) →
    Option (List (String × MCPServerConfig))
  | [] => some []
  | (n, j) :: rest =>
      match MCPServerConfig.from_dict j, decodeServerTable rest with
      | some c, some cs => some ((n, c) :: cs)
      | _, _ => none

/-- `MCPConfigManager.import_config(json_data)` from `json.loads` onwards:
`data.get('servers', {})` (absent key yields an empty table), each entry
rebuilt via `from_dict`; any exception makes the import return `False`
(`none` here).  A non-object top level or non-object `servers` value raises
at `.get`/`.items()`. -/
def importConfig (j : Json) : Option (List (String × MCPServerConfig)) :=
  match j with
  | Json.obj fields =>
      match dictGetLast fields "servers" with
      | some (Json.obj servers) => decodeServerTable servers
      | some _ => none
      | none => some []
  | _ => none

/-! ## Dictionary lemmas -/

theorem dictGetLast_foldl {α : Type} (k : String) (l : List (String × α))
    (acc : Option α) :
    l.foldl (fun acc p => if p.1 = k then some p.2 else acc) acc
      = match dictGetLast l k with
        | some v => some v
        | none => acc := by
  induction l generalizing acc with
  | nil => simp [dictGetLast]
  | cons p l ih =>
      show l.foldl _ (if p.1 = k then some p.2 else acc) = _
      rw [ih]
      have hl : dictGetLast (p :: l) k
          = match dictGetLast l k with
            | some v => some v
            | none => if p.1 = k then some p.2 else none := by
        show l.foldl _ (if p.1 = k then some p.2 else none) = _
        rw [ih]
      rw [hl]
      cases dictGetLast l k with
      | some v => rfl
      | none =>
          by_cases h : p.1 = k <;> simp [h]

theorem dictGetLast_cons {α : Type} (k : String) (p : String × α)
    (l : List (String × α)) :
    dictGetLast (p :: l) k
      = match dictGetLast l k with
        | some v => some v
        | none => if p.1 = k then some p.2 else none := by
  show l.foldl _ (if p.1 = k then some p.2 else none) = _
  rw [dictGetLast_foldl]

theorem dictGetLast_eq_none_iff {α : Type} (k : String) (l : List (String × α)) :
    dictGetLast l k = none ↔ l.any (fun p => p.1 = k) = false := by
  induction l with
  | nil => simp [dictGetLast]
  | cons p l ih =>
      rw [dictGetLast_cons]
      cases h : dictGetLast l k with
      | some v =>
          simp only [List.any_cons]
          constructor
          · intro hc; cases hc
          · intro hc
            rw [ih.mpr] at h
            · cases h
            · simp only [Bool.or_eq_false_iff] at hc
              exact hc.2
      | none =>
          by_cases hp : p.1 = k <;> simp [hp, ih.mp h]

theorem dictGet_replace {α : Type} (d : List (String × α)) (k k' : String)
    (v : α) :
    dictGet (d.map (fun p => if p.1 = k then (k, v) else p)) k'
      = if k' = k then
          (if d.any (fun p => p.1 = k) = true then some v else none)
        else dictGet d k' := by
  induction d with
  | nil => by_cases hk : k' = k <;> simp [dictGet, hk]
  | cons p d ih =>
      simp only [List.map_cons, List.any_cons, Bool.or_eq_true]
      by_cases hp : p.1 = k
      · rw [if_pos hp]
        show dictGet ((k, v) :: _) k' = _
        by_cases hk : k' = k
        · subst hk
          simp [dictGet, hp]
        · have hkk' : ¬ k = k' := fun h => hk h.symm
          have hpk' : ¬ p.1 = k' := fun h => hk (by rw [← h, hp])
          simp only [dictGet, if_neg hkk', ih, if_neg hk, if_neg hpk']
      · rw [if_neg hp]
        show dictGet (p :: _) k' = _
        by_cases hpk' : p.1 = k'
        · have hk : ¬ k' = k := fun h => hp (by rw [hpk', h])
          simp [dictGet, hpk', hk]
        · simp only [dictGet, if_neg hpk', ih]
          by_cases hk : k' = k
          · have hiff : (decide (p.1 = k) = true
                  ∨ (d.any fun p => decide (p.1 = k)) = true)
                ↔ ((d.any fun p => decide (p.1 = k)) = true) := by
              simp [hp]
            simp only [hiff, hk, if_pos rfl]
          · simp [hk]

theorem dictGet_append_single {α : Type} (d : List (String × α)) (k k' : String)
    (v : α) (h : d.any (fun p => p.1 = k) = false) :
    dictGet (d ++ [(k, v)]) k' = if k' = k then some v else dictGet d k' := by
  induction d with
  | nil =>
      by_cases hk : k' = k
      · subst hk
        simp [dictGet]
      · have : ¬ k = k' := fun h => hk h.symm
        simp [dictGet, hk, this]
  | cons p d ih =>
      simp only [List.any_cons, Bool.or_eq_false_iff] at h
      show dictGet (p :: (d ++ [(k, v)])) k' = _
      by_cases hpk' : p.1 = k'
      · have hk : ¬ k' = k := by
          intro hkk
          have : p.1 = k := by rw [hpk', hkk]
          simp [this] at h
        simp [dictGet, hpk', hk]
      · have hstep : dictGet (p :: (d ++ [(k, v)])) k'
            = dictGet (d ++ [(k, v)]) k' := by
          simp [dictGet, hpk']
        rw [hstep, ih h.2]
        by_cases hk : k' = k
        · simp [hk]
        · simp [dictGet, hk, hpk']

theorem dictGet_dictInsert {α : Type} (d : List (String × α)) (k k' : String)
    (v : α) :
    dictGet (dictInsert d k v) k' = if k' = k then some v else dictGet d k' := by
  unfold dictInsert
  by_cases hmem : d.any (fun p => p.1 = k) = true
  · rw [if_pos hmem, dictGet_replace]
    by_cases hk : k' = k <;> simp [hk, hmem]
  · rw [if_neg hmem]
    have hfalse : d.any (fun p => p.1 = k) = false := by
      cases hany : d.any (fun p => p.1 = k)
      · rfl
      · exact absurd hany hmem
    exact dictGet_append_single d k k' v hfalse

theorem dictGet_dictUpdate {α : Type} (d new : List (String × α)) (k : String) :
    dictGet (dictUpdate d new) k
      = match dictGetLast new k with
        | some v => some v
        | none => dictGet d k := by
  induction new generalizing d with
  | nil => simp [dictUpdate, dictGetLast]
  | cons p new ih =>
      show dictGet (dictUpdate (dictInsert d p.1 p.2) new) k = _
      rw [ih, dictGetLast_cons]
      cases dictGetLast new k with
      | some v => rfl
      | none =>
          rw [dictGet_dictInsert]
          by_cases hk : k = p.1

          · simp [hk]
          · have : ¬ p.1 = k := fun h => hk h.symm
            simp [hk, this]

theorem keys_dictInsert {α : Type} (d : List (String × α)) (k : String) (v : α) :
    (dictInsert d k v).map Prod.fst = d.map Prod.fst
      ∨ (dictInsert d k v).map Prod.fst = d.map Prod.fst ++ [k] := by
  unfold dictInsert
  by_cases hmem : d.any (fun p => p.1 = k) = true
  · left
    rw [if_pos hmem, List.map_map]
    apply List.map_congr_left
    intro a _
    by_cases ha : a.1 = k <;> simp [ha]
  · right
    rw [if_neg hmem]
    simp

theorem nodup_keys_dictInsert {α : Type} (d : List (String × α)) (k : String)
    (v : α) (h : (d.map Prod.fst).Nodup) :
    ((dictInsert d k v).map Prod.fst).Nodup := by
  unfold dictInsert
  by_cases hmem : d.any (fun p => p.1 = k) = true
  · rw [if_pos hmem]
    have heq : (d.map (fun p => if p.1 = k then (k, v) else p)).map Prod.fst
        = d.map Prod.fst := by
      rw [List.map_map]
      apply List.map_congr_left
      intro a _
      by_cases ha : a.1 = k <;> simp [ha]
    rw [heq]
    exact h
  · rw [if_neg hmem, List.map_append, List.nodup_append]
    refine ⟨h, by simp, ?_⟩
    intro a ha hk'
    simp only [List.map_cons, List.map_nil, List.mem_singleton] at hk'
    subst hk'
    rcases List.mem_map.mp ha with ⟨p, hp, hpa⟩
    exact hmem (List.any_eq_true.mpr ⟨p, hp, by simp [hpa]⟩)

/-! ## Aggregation lemmas -/

/-- The tool entry the name `k` ends up mapped to after the aggregation loop
of `initialize` — the one from the connection recorded last, among the
initialized connections whose tool map carries `k` — together with the key
of that connection in the connection map. -/
def lastToolContribution (conns : List (String × MCPServerConnection))
    (k : String) : Option (String × MCPTool) :=
  conns.foldl
    (fun acc p =>
      if p.2.initialized then
        match dictGetLast p.2.tools k with
        | some t => some (p.1, t)
        | none => acc
      else acc)
    none

theorem lastToolContribution_foldl (conns : List (String × MCPServerConnection))
    (k : String) (acc : Option (String × MCPTool)) :
    conns.foldl
      (fun acc p =>
        if p.2.initialized then
          match dictGetLast p.2.tools k with
          | some t => some (p.1, t)
          | none => acc
        else acc)
      acc
    = match lastToolContribution conns k with
      | some x => some x
      | none => acc := by
  induction conns generalizing acc with
  | nil => simp [lastToolContribution]
  | cons p conns ih =>
      show conns.foldl _ _ = _
      rw [ih]
      have hl : lastToolContribution (p :: conns) k
          = match lastToolContribution conns k with
            | some x => some x
            | none =>
                if p.2.initialized then
                  match dictGetLast p.2.tools k with
                  | some t => some (p.1, t)
                  | none => none
                else none := by
        show conns.foldl _ _ = _
        rw [ih]
      rw [hl]
      cases lastToolContribution conns k with
      | some x => rfl
      | none =>
          by_cases hi : p.2.initialized = true
          · simp only [hi, if_pos rfl]
            cases dictGetLast p.2.tools k <;> rfl
          · simp only [Bool.not_eq_true] at hi
            simp [hi]

/-- The tool-catalog aggregation loop of `initialize`, looked up at a name:
the result is the last contribution, falling back to whatever the catalog
already held. -/
theorem aggTools_lookup (conns : List (String × MCPServerConnection))
    (init : List (String × MCPTool)) (k : String) :
    dictGet
      (conns.foldl
        (fun acc p => if p.2.initialized then dictUpdate acc p.2.tools else acc)
        init)
      k
    = match lastToolContribution conns k with
      | some x => some x.2
      | none => dictGet init k := by
  induction conns generalizing init with
  | nil => simp [lastToolContribution]
  | cons p conns ih =>
      show dictGet (conns.foldl _ (if p.2.initialized then dictUpdate init p.2.tools else init)) k = _
      rw [ih]
      have hl : lastToolContribution (p :: conns) k
          = match lastToolContribution conns k with
            | some x => some x
            | none =>
                if p.2.initialized then
                  match dictGetLast p.2.tools k with
                  | some t => some (p.1, t)
                  | none => none
                else none := by
        show conns.foldl _ _ = _
        rw [lastToolContribution_foldl]
      rw [hl]
      cases lastToolContribution conns k with
      | some x => rfl
      | none =>
          by_cases hi : p.2.initialized = true
          · simp only [if_pos hi, dictGet_dictUpdate]
            cases dictGetLast p.2.tools k <;> rfl
          · simp only [Bool.not_eq_true] at hi
            simp [hi]

/-- Membership content of `lastToolContribution`: a contribution comes from
an actual connection entry that is initialized and carries the name. -/
theorem lastToolContribution_mem (conns : List (String × MCPServerConnection))
    (k : String) (srv : String) (t : MCPTool)
    (h : lastToolContribution conns k = some (srv, t)) :
    ∃ p ∈ conns, p.1 = srv ∧ p.2.initialized = true
      ∧ dictGetLast p.2.tools k = some t := by
  induction conns with
  | nil => simp [lastToolContribution] at h
  | cons p conns ih =>
      have hl : lastToolContribution (p :: conns) k
          = match lastToolContribution conns k with
            | some x => some x
            | none =>
                if p.2.initialized then
                  match dictGetLast p.2.tools k with
                  | some t => some (p.1, t)
                  | none => none
                else none := by
        show conns.foldl _ _ = _
        rw [lastToolContribution_foldl]
      rw [hl] at h
      cases hrest : lastToolContribution conns k with
      | some x =>
          rw [hrest] at h
          simp only [Option.some.injEq] at h
          subst h
          rcases ih hrest with ⟨q, hq, hq1, hq2, hq3⟩
          exact ⟨q, List.mem_cons_of_mem p hq, hq1, hq2, hq3⟩
      | none =>
          rw [hrest] at h
          by_cases hi : p.2.initialized = true
          · rw [if_pos hi] at h
            cases hd : dictGetLast p.2.tools k with
            | some t' =>
                rw [hd] at h
                simp only [Option.some.injEq, Prod.mk.injEq] at h
                exact ⟨p, List.mem_cons_self p conns,
                  h.1, hi, h.2 ▸ hd⟩
            | none => rw [hd] at h; cases h
          · rw [if_neg hi] at h
            cases h

/-- Keys stay nodup through the aggregation loop. -/
theorem nodup_keys_dictUpdate {α : Type} (d new : List (String × α))
    (h : (d.map Prod.fst).Nodup) :
    ((dictUpdate d new).map Prod.fst).Nodup := by
  induction new generalizing d with
  | nil => exact h
  | cons p new ih =>
      exact ih (dictInsert d p.1 p.2) (nodup_keys_dictInsert d p.1 p.2 h)

theorem nodup_keys_aggTools (conns : List (String × MCPServerConnection))
    (init : List (String × MCPTool)) (h : (init.map Prod.fst).Nodup) :
    (((conns.foldl
        (fun acc p => if p.2.initialized then dictUpdate acc p.2.tools else acc)
        init)).map Prod.fst).Nodup := by
  induction conns generalizing init with
  | nil => exact h
  | cons p conns ih =>
      refine ih _ ?_
      by_cases hi : p.2.initialized = true
      · simpa [hi] using nodup_keys_dictUpdate init p.2.tools h
      · simp only [Bool.not_eq_true] at hi
        simpa [hi] using h

/-- Inserting pairs with fresh, pairwise-distinct keys into a dict appends
them in order. -/
theorem dictUpdate_append {α : Type} (d new : List (String × α))
    (h1 : ∀ k ∈ new.map Prod.fst, k ∉ d.map Prod.fst)
    (h2 : (new.map Prod.fst).Nodup) :
    dictUpdate d new = d ++ new := by
  induction new generalizing d with
  | nil => simp [dictUpdate]
  | cons p new ih =>
      show dictUpdate (dictInsert d p.1 p.2) new = _
      have hnotany : (d.any fun q => q.1 = p.1) = false := by
        cases hany : d.any fun q => q.1 = p.1
        · rfl
        · rcases List.any_eq_true.mp hany with ⟨q, hq, hq1⟩
          simp only [decide_eq_true_eq] at hq1
          exact absurd (List.mem_map.mpr ⟨q, hq, hq1⟩) (h1 p.1 (by simp))
      have hins : dictInsert d p.1 p.2 = d ++ [p] := by
        unfold dictInsert
        rw [hnotany]
        simp
      rw [hins, ih]
      · simp
      · intro k hk
        simp only [List.map_append, List.map_cons, List.map_nil,
          List.mem_append, List.mem_singleton, not_or]
        refine ⟨h1 k (by simp [hk]), ?_⟩
        intro hkp
        simp only [List.map_cons, List.nodup_cons] at h2
        exact h2.1 (hkp ▸ hk)
      · simp only [List.map_cons, List.nodup_cons] at h2
        exact h2.2

/-- With nodup keys, first-match lookup finds every entry. -/
theorem dictGet_of_mem_nodup {α : Type} (d : List (String × α))
    (h : (d.map Prod.fst).Nodup) (p : String × α) (hp : p ∈ d) :
    dictGet d p.1 = some p.2 := by
  induction d with
  | nil => cases hp
  | cons q d ih =>
      simp only [List.map_cons, List.nodup_cons] at h
      rcases List.mem_cons.mp hp with hq | hq
      · subst hq
        simp [dictGet]
      · have hne : ¬ q.1 = p.1 := by
          intro he
          exact h.1 (he ▸ List.mem_map.mpr ⟨p, hq, rfl⟩)
        simp only [dictGet, if_neg hne]
        exact ih h.2 hq

/-! ## Concrete fixtures (used by witness instances) -/

/-- A fake "add" tool with schema `a:int, b:int`, owned by a calculator
server. -/
def exAddTool : MCPTool :=
  { name := "add"
    description := "Add two numbers"
    inputSchema := Json.obj
      [("properties", Json.obj
        [("a", Json.obj [("type", Json.str "integer")]),
         ("b", Json.obj [("type", Json.str "integer")])]),
       ("required", Json.arr [Json.str "a", Json.str "b"])]
    server_name := "calculator" }

/-- A fake "sub" tool owned by the same server. -/
def exSubTool : MCPTool :=
  { name := "sub"
    description := "Subtract two numbers"
    inputSchema := Json.obj []
    server_name := "calculator" }

/-- A connected calculator server offering exactly "add" and "sub". -/
def exCalcConn : MCPServerConnection :=
  { name := "calculator"
    process := some ()
    tools := [("add", exAddTool), ("sub", exSubTool)]
    resources := []
    initialized := true }

/-- A registry whose aggregated catalog holds exactly "add" and "sub". -/
def exClient : DynamicMCPClient :=
  { server_connections := [("calculator", exCalcConn)]
    available_tools := [("add", exAddTool), ("sub", exSubTool)]
    available_resources := []
    initialized := true }

/-! ## Claims -/

/-- C1: `execute_tool` returns `(false, "Tool <name> not found")` when the
name is absent from the aggregated catalog; `(false, "Server <server> not
connected")` when the owning connection is missing from the connection map
or its initialized flag is false; and otherwise exactly the pair produced by
the owning connection's `call_tool`, unchanged.  In particular, requesting
"multiply" against a catalog holding only "add" and "sub" yields
`(false, "Tool multiply not found")`. -/
theorem execute_tool_resolution (client : DynamicMCPClient)
    (tool_name : String) (response : Option Json) :
    (dictGet client.available_tools tool_name = none →
      client.execute_tool tool_name response
        = (false, "Tool " ++ tool_name ++ " not found"))
    ∧ (∀ tool, dictGet client.available_tools tool_name = some tool →
        dictGet client.server_connections tool.server_name = none →
        client.execute_tool tool_name response
          = (false, "Server " ++ tool.server_name ++ " not connected"))
    ∧ (∀ tool conn, dictGet client.available_tools tool_name = some tool →
        dictGet client.server_connections tool.server_name = some conn →
        conn.initialized = false →
        client.execute_tool tool_name response
          = (false, "Server " ++ tool.server_name ++ " not connected"))
    ∧ (∀ tool conn, dictGet client.available_tools tool_name = some tool →
        dictGet client.server_connections tool.server_name = some conn →
        conn.initialized = true →
        client.execute_tool tool_name response
          = conn.call_tool tool_name response)
    ∧ exClient.execute_tool "multiply" none
        = (false, "Tool multiply not found") := by
  refine ⟨?_, ?_, ?_, ?_, ?_⟩
  · intro h
    unfold DynamicMCPClient.execute_tool
    rw [h]
  · intro tool h1 h2
    unfold DynamicMCPClient.execute_tool
    simp only [h1, h2]
  · intro tool conn h1 h2 h3
    unfold DynamicMCPClient.execute_tool
    simp only [h1, h2, h3]
    rfl
  · intro tool conn h1 h2 h3
    unfold DynamicMCPClient.execute_tool
    simp only [h1, h2, h3]
    rfl
  · rfl

/-- C1 witness: the initialized-delegation case at a concrete input. -/
theorem execute_tool_resolution_witness :
    exClient.execute_tool "add" none = exCalcConn.call_tool "add" none :=
  (execute_tool_resolution exClient "add" none).2.2.2.1
    exAddTool exCalcConn rfl rfl rfl

/-- C9: after `cleanup()` the connection map, both catalogs and the
registry's initialized flag are cleared, every connection has been
disconnected (flag down, process gone), and `disconnect()` is idempotent. -/
theorem cleanup_clears_state (client : DynamicMCPClient) :
    (client.cleanup).1.server_connections = []
    ∧ (client.cleanup).1.available_tools = []
    ∧ (client.cleanup).1.available_resources = []
    ∧ (client.cleanup).1.initialized = false
    ∧ (∀ p ∈ client.server_connections,
        p.2.disconnect ∈ (client.cleanup).2)
    ∧ (∀ c ∈ (client.cleanup).2,
        c.initialized = false ∧ c.process = none)
    ∧ (∀ conn : MCPServerConnection,
        conn.disconnect.initialized = false
        ∧ conn.disconnect.process = none
        ∧ conn.disconnect.disconnect = conn.disconnect) := by
  refine ⟨rfl, rfl, rfl, rfl, ?_, ?_, ?_⟩
  · intro p hp
    exact List.mem_map.mpr ⟨p, hp, rfl⟩
  · intro c hc
    rcases List.mem_map.mp hc with ⟨p, _, hpc⟩
    subst hpc
    exact ⟨rfl, rfl⟩
  · intro conn
    exact ⟨rfl, rfl, rfl⟩

/-- C9 witness: cleanup of the example registry at a concrete state. -/
theorem cleanup_clears_state_witness :
    exCalcConn.disconnect ∈ (exClient.cleanup).2
    ∧ ∀ c ∈ (exClient.cleanup).2, c.initialized = false :=
  ⟨(cleanup_clears_state exClient).2.2.2.2.1 ("calculator", exCalcConn)
      (by simp [exClient]),
   fun c hc => ((cleanup_clears_state exClient).2.2.2.2.2.1 c hc).1⟩

/-- A guarded fold over entries none of which pass the guard leaves the
accumulator unchanged. -/
theorem foldl_skip_all {α β : Type} (l : List α) (init : β) (c : α → Bool)
    (f : β → α → β) (h : ∀ x ∈ l, c x = false) :
    l.foldl (fun acc x => if c x then f acc x else acc) init = init := by
  induction l generalizing init with
  | nil => rfl
  | cons x l ih =>
      show l.foldl _ (if c x then f init x else init) = init
      rw [h x (List.mem_cons_self x l)]
      exact ih init (fun y hy => h y (List.mem_cons_of_mem x hy))

/-- Entries of an updated dict come from the base dict or the inserted
pairs. -/
theorem mem_dictInsert {α : Type} (d : List (String × α)) (k : String) (v : α)
    (q : String × α) (hq : q ∈ dictInsert d k v) : q ∈ d ∨ q = (k, v) := by
  unfold dictInsert at hq
  by_cases hmem : d.any (fun p => p.1 = k) = true
  · rw [if_pos hmem] at hq
    rcases List.mem_map.mp hq with ⟨p, hp, hpq⟩
    by_cases hpk : p.1 = k
    · right
      rw [← hpq, if_pos hpk]
    · left
      rwa [← hpq, if_neg hpk]
  · rw [if_neg hmem] at hq
    rcases List.mem_append.mp hq with h | h
    · exact Or.inl h
    · exact Or.inr (by simpa using h)

theorem mem_dictUpdate {α : Type} (d new : List (String × α)) (q : String × α)
    (hq : q ∈ dictUpdate d new) : q ∈ d ∨ q ∈ new := by
  induction new generalizing d with
  | nil => exact Or.inl hq
  | cons p new ih =>
      rcases ih (dictInsert d p.1 p.2) hq with h | h
      · rcases mem_dictInsert d p.1 p.2 q h with h' | h'
        · exact Or.inl h'
        · exact Or.inr (by simp [h'])
      · exact Or.inr (List.mem_cons_of_mem p h)

/-- C10: `initialize` sets the registry's flag unconditionally (its body has
no exceptional exit in the model), even when zero connections succeed, while
returning false in that case; a later `get_available_tools` /
`get_available_resources` call on such a fully failed registry does not
re-trigger initialization and returns an empty catalog. -/
theorem init_flag_set_on_total_failure (servers servers' : List ServerEntry)
    (hfail : ∀ s ∈ servers, s.enabled = true → s.outcome.ok = false) :
    (∀ (client : DynamicMCPClient) (srv : List ServerEntry),
        ((client.initClient srv).1).initialized = true)
    ∧ (freshClient.initClient servers).2 = false
    ∧ ((freshClient.initClient servers).1.get_available_tools servers').2.2
        = false
    ∧ ((freshClient.initClient servers).1.get_available_tools
        servers').2.1.value = []
    ∧ ((freshClient.initClient servers).1.get_available_resources servers').2.2
        = false
    ∧ ((freshClient.initClient servers).1.get_available_resources
        servers').2.1.value = [] := by
  have hconns : ∀ p ∈ initConnections servers, p.2.initialized = false := by
    intro p hp
    rcases List.mem_map.mp hp with ⟨s, hs, hps⟩
    subst hps
    rcases List.mem_filter.mp hs with ⟨hs1, hs2⟩
    show s.outcome.ok = false
    exact hfail s hs1 (by simpa using hs2)
  have hnoinit : ∀ p ∈ dictUpdate ([] : List (String × MCPServerConnection))
      (initConnections servers), p.2.initialized = false := by
    intro p hp
    rcases mem_dictUpdate [] (initConnections servers) p hp with h | h
    · cases h
    · exact hconns p h
  have hcatT : ((freshClient.initClient servers).1).available_tools = [] := by
    have hdef : ((freshClient.initClient servers).1).available_tools
        = (dictUpdate [] (initConnections servers)).foldl
            (fun acc p =>
              if p.2.initialized then dictUpdate acc p.2.tools else acc)
            [] := rfl
    rw [hdef]
    exact foldl_skip_all _ _ _ _ hnoinit
  have hcatR : ((freshClient.initClient servers).1).available_resources
      = [] := by
    have hdef : ((freshClient.initClient servers).1).available_resources
        = (dictUpdate [] (initConnections servers)).foldl
            (fun acc p =>
              if p.2.initialized then dictUpdate acc p.2.resources else acc)
            [] := rfl
    rw [hdef]
    exact foldl_skip_all _ _ _ _ hnoinit
  have hfilter : (enabledServers servers).filter (fun s => s.outcome.ok)
      = [] := by
    rw [List.filter_eq_nil_iff]
    intro s hs
    rcases List.mem_filter.mp hs with ⟨h1, h2⟩
    simp [hfail s h1 (by simpa using h2)]
  have hret : (freshClient.initClient servers).2
      = decide (0 < ((enabledServers servers).filter
          (fun s => s.outcome.ok)).length) := rfl
  refine ⟨fun _ _ => rfl, ?_, rfl, hcatT, rfl, hcatR⟩
  rw [hret, hfilter]
  rfl

/-- C10 witness: a single enabled server whose spawn fails. -/
theorem init_flag_set_on_total_failure_witness :
    (freshClient.initClient
        [{ name := "weather", enabled := true,
           outcome := { ok := false, tools := [], resources := [] } }]).2
      = false :=
  (init_flag_set_on_total_failure
    [{ name := "weather", enabled := true,
       outcome := { ok := false, tools := [], resources := [] } }] []
    (by intro s hs _; simp at hs; simp [hs])).2.1

/-- C8: the getters return a defensive copy of the aggregated catalog —
mutating the returned mapping leaves the registry's internal catalog
unchanged — and a call made before the registry was ever initialized
triggers `initialize` exactly once: every later getter call on the
resulting state triggers no further initialization. -/
theorem getters_defensive_copy_lazy_init (client : DynamicMCPClient)
    (servers servers' : List ServerEntry)
    (f : List (String × MCPTool) → List (String × MCPTool))
    (g : List (String × MCPResource) → List (String × MCPResource)) :
    ((mutateReturnedTools (client.get_available_tools servers).1
        (client.get_available_tools servers).2.1 f).1
      = (client.get_available_tools servers).1)
    ∧ ((client.get_available_tools servers).2.1.value
        = (client.get_available_tools servers).1.available_tools)
    ∧ ((mutateReturnedResources (client.get_available_resources servers).1
        (client.get_available_resources servers).2.1 g).1
      = (client.get_available_resources servers).1)
    ∧ ((client.get_available_resources servers).2.1.value
        = (client.get_available_resources servers).1.available_resources)
    ∧ (client.initialized = false →
        (client.get_available_tools servers).2.2 = true
        ∧ (client.get_available_resources servers).2.2 = true)
    ∧ ((client.get_available_tools servers).1.get_available_tools
          servers').2.2 = false
    ∧ ((client.get_available_tools servers).1.get_available_resources
          servers').2.2 = false
    ∧ ((client.get_available_resources servers).1.get_available_tools
          servers').2.2 = false
    ∧ ((client.get_available_resources servers).1.get_available_resources
          servers').2.2 = false := by
  by_cases hinit : client.initialized = true
  · have hT : client.get_available_tools servers
        = (client,
           { value := client.available_tools, aliasesInternal := false },
           false) := by
      unfold DynamicMCPClient.get_available_tools
      rw [hinit]
      rfl
    have hR : client.get_available_resources servers
        = (client,
           { value := client.available_resources, aliasesInternal := false },
           false) := by
      unfold DynamicMCPClient.get_available_resources
      rw [hinit]
      rfl
    have hT2 : ∀ srv, (client.get_available_tools srv).2.2 = false := by
      intro srv
      unfold DynamicMCPClient.get_available_tools
      rw [hinit]
      rfl
    have hR2 : ∀ srv, (client.get_available_resources srv).2.2 = false := by
      intro srv
      unfold DynamicMCPClient.get_available_resources
      rw [hinit]
      rfl
    refine ⟨?_, ?_, ?_, ?_, ?_, ?_, ?_, ?_, ?_⟩ <;>
      simp only [hT, hR] <;>
      first
        | rfl
        | (intro h; rw [h] at hinit; cases hinit)
        | exact hT2 servers'
        | exact hR2 servers'
  · have hfalse : client.initialized = false := by
      cases h : client.initialized
      · rfl
      · exact absurd h hinit
    have hT : client.get_available_tools servers
        = ((client.initClient servers).1,
           { value := ((client.initClient servers).1).available_tools,
             aliasesInternal := false },
           true) := by
      unfold DynamicMCPClient.get_available_tools
      rw [hfalse]
      rfl
    have hR : client.get_available_resources servers
        = ((client.initClient servers).1,
           { value := ((client.initClient servers).1).available_resources,
             aliasesInternal := false },
           true) := by
      unfold DynamicMCPClient.get_available_resources
      rw [hfalse]
      rfl
    have hpost : ((client.initClient servers).1).initialized = true := rfl
    have hT2 : ∀ srv, (((client.initClient servers).1).get_available_tools
        srv).2.2 = false := by
      intro srv
      unfold DynamicMCPClient.get_available_tools
      rw [hpost]
      rfl
    have hR2 : ∀ srv, (((client.initClient servers).1).get_available_resources
        srv).2.2 = false := by
      intro srv
      unfold DynamicMCPClient.get_available_resources
      rw [hpost]
      rfl
    refine ⟨?_, ?_, ?_, ?_, fun _ => ⟨?_, ?_⟩, ?_, ?_, ?_, ?_⟩ <;>
      simp only [hT, hR] <;> rfl

/-- C8 witness: a never-initialized registry with no configured servers. -/
theorem getters_defensive_copy_lazy_init_witness :
    (freshClient.get_available_tools []).2.2 = true
    ∧ ((freshClient.get_available_tools []).1.get_available_tools []).2.2
        = false :=
  ⟨((getters_defensive_copy_lazy_init freshClient [] [] id id).2.2.2.2.1
      rfl).1,
   (getters_defensive_copy_lazy_init freshClient [] [] id id).2.2.2.2.2.1⟩

/-- C2: while blocked on its own pending request, every inbound message
carrying a truthy `method` and an `id` different from the pending id is
answered before the wait resumes — `roots/list` with an empty roots result,
anything else with a JSON-RPC error of code -32601 — and the loop then keeps
reading until the message whose id equals the pending id arrives, which is
what the original caller receives.  The preceding messages are parsed
objects, as every JSON-RPC message is: a non-object line would instead
abort the whole request (the modelled `AttributeError` path of
`sendRequestLoop`). -/
theorem send_request_interleaving (request_id : String) (pre : List Json)
    (resp : Json) (rest : List Json)
    (hpre : ∀ m ∈ pre, (∃ fields, m = Json.obj fields)
      ∧ idMatches m request_id = false)
    (hresp_req : isServerRequest resp = false)
    (hresp_id : idMatches resp request_id = true) :
    sendRequestLoop request_id (pre ++ resp :: rest)
      = (some resp, (pre.filter isServerRequest).map serverRequestReply)
    ∧ (∀ m, isServerRequest m = true →
        (m.getField "method" = some (Json.str "roots/list") →
          serverRequestReply m
            = Json.obj [("jsonrpc", Json.str "2.0"),
                       ("id", (m.getField "id").getD Json.null),
                       ("result", Json.obj [("roots", Json.arr [])])])
        ∧ (m.getField "method" ≠ some (Json.str "roots/list") →
            ((serverRequestReply m).getField "error").bind
                (fun e => e.getField "code")
              = some (Json.num (-32601)))) := by
  constructor
  · induction pre with
    | nil =>
        show sendRequestLoop request_id (resp :: rest) = _
        cases resp with
        | obj fields =>
            unfold sendRequestLoop
            rw [hresp_req, hresp_id]
            rfl
        | null => exact Bool.noConfusion hresp_id
        | bool b => exact Bool.noConfusion hresp_id
        | num n => exact Bool.noConfusion hresp_id
        | str s => exact Bool.noConfusion hresp_id
        | arr xs => exact Bool.noConfusion hresp_id
    | cons m pre ih =>
        obtain ⟨⟨fields, hmobj⟩, hm⟩ := hpre m (List.mem_cons_self m _)
        have hpre' : ∀ m' ∈ pre, (∃ fields, m' = Json.obj fields)
            ∧ idMatches m' request_id = false :=
          fun m' hm' => hpre m' (List.mem_cons_of_mem m hm')
        have ih' := ih hpre'
        subst hmobj
        show sendRequestLoop request_id
          (Json.obj fields :: (pre ++ resp :: rest)) = _
        unfold sendRequestLoop
        cases hsr : isServerRequest (Json.obj fields) with
        | true => simp [hsr, ih', List.filter_cons]
        | false => simp [hsr, hm, ih', List.filter_cons]
  · intro m _
    constructor
    · intro hmethod
      unfold serverRequestReply
      rw [hmethod]
      rfl
    · intro hmethod
      unfold serverRequestReply
      split
      · exact absurd (by assumption) hmethod
      · rfl

/-- C2 witness: a `roots/list` request and an unknown-method request arrive
before the pending response; both are answered and the response is
returned. -/
theorem send_request_interleaving_witness :
    sendRequestLoop "req-1"
        [Json.obj [("jsonrpc", Json.str "2.0"), ("id", Json.num 7),
                   ("method", Json.str "roots/list")],
         Json.obj [("jsonrpc", Json.str "2.0"), ("id", Json.num 8),
                   ("method", Json.str "sampling/createMessage")],
         Json.obj [("jsonrpc", Json.str "2.0"), ("id", Json.str "req-1"),
                   ("result", Json.obj [("tools", Json.arr [])])]]
      = (some (Json.obj [("jsonrpc", Json.str "2.0"),
                         ("id", Json.str "req-1"),
                         ("result", Json.obj [("tools", Json.arr [])])]),
         [serverRequestReply
            (Json.obj [("jsonrpc", Json.str "2.0"), ("id", Json.num 7),
                       ("method", Json.str "roots/list")]),
          serverRequestReply
            (Json.obj [("jsonrpc", Json.str "2.0"), ("id", Json.num 8),
                       ("method", Json.str "sampling/createMessage")])]) :=
  (send_request_interleaving "req-1"
    [Json.obj [("jsonrpc", Json.str "2.0"), ("id", Json.num 7),
               ("method", Json.str "roots/list")],
     Json.obj [("jsonrpc", Json.str "2.0"), ("id", Json.num 8),
               ("method", Json.str "sampling/createMessage")]]
    (Json.obj [("jsonrpc", Json.str "2.0"), ("id", Json.str "req-1"),
               ("result", Json.obj [("tools", Json.arr [])])])
    []
    (by
      intro m hm
      simp only [List.mem_cons, List.not_mem_nil, or_false] at hm
      rcases hm with hm | hm <;> subst hm <;> exact ⟨⟨_, rfl⟩, rfl⟩)
    rfl rfl).1

/-- Well-formed text content items decode to their text fields. -/
theorem collectTexts_textItems (texts : List String) :
    collectTexts (texts.map (fun t =>
      Json.obj [("type", Json.str "text"), ("text", Json.str t)]))
      = some texts := by
  induction texts with
  | nil => rfl
  | cons t texts ih =>
      show (collectTexts (texts.map _)).map (fun ts => t :: ts) = _
      rw [ih]
      rfl

/-- C3: `call_tool` fails immediately — with a result independent of any
response, since no RPC is sent — when the connection is uninitialized or the
tool name is unknown to it; otherwise an `error` field yields the
server-provided message, a `result.content` list of `type:"text"` items
yields their texts joined with newlines, a `result` lacking `content` is
serialized verbatim, and a response with neither `error` nor `result` is a
failure. -/
theorem call_tool_interpretation (conn : MCPServerConnection)
    (tool_name : String) :
    (∀ response,
      conn.initialized = false ∨ dictGet conn.tools tool_name = none →
      conn.call_tool tool_name response
        = (false,
           "Tool " ++ tool_name ++ " not available on server " ++ conn.name))
    ∧ (conn.initialized = true →
        (∃ t, dictGet conn.tools tool_name = some t) →
        (∀ resp errFields msg,
          resp.getField "error" = some (Json.obj errFields) →
          dictGetLast errFields "message" = some (Json.str msg) →
          conn.call_tool tool_name (some resp)
            = (false, "Server error: " ++ msg))
        ∧ (∀ resp resultFields texts,
            resp.getField "error" = none →
            resp.getField "result" = some (Json.obj resultFields) →
            dictGetLast resultFields "content"
              = some (Json.arr (texts.map (fun t : String =>
                  Json.obj [("type", Json.str "text"),
                            ("text", Json.str t)]))) →
            conn.call_tool tool_name (some resp)
              = (true, String.intercalate "\n" texts))
        ∧ (∀ resp resultFields,
            resp.getField "error" = none →
            resp.getField "result" = some (Json.obj resultFields) →
            dictGetLast resultFields "content" = none →
            conn.call_tool tool_name (some resp)
              = (true, jsonDumps (Json.obj resultFields)))
        ∧ (∀ resp,
            resp.getField "error" = none →
            resp.getField "result" = none →
            conn.call_tool tool_name (some resp)
              = (false, "No result in response"))
        ∧ (conn.call_tool tool_name none
            = (false, "No response from server"))) := by
  constructor
  · intro response h
    unfold MCPServerConnection.call_tool
    rcases h with h | h
    · rw [h]
      rfl
    · rw [h]
      simp
  · intro hinit ⟨t, ht⟩
    have hguard : ∀ response, conn.call_tool tool_name response
        = interpretCallResponse response := by
      intro response
      unfold MCPServerConnection.call_tool
      rw [hinit, ht]
      rfl
    refine ⟨?_, ?_, ?_, ?_, ?_⟩
    · intro resp errFields msg herr hmsg
      rw [hguard]
      simp only [interpretCallResponse, herr, hmsg, Option.getD_some, pyStr]
    · intro resp resultFields texts herr hres hcontent
      rw [hguard]
      have hcont : pyContains (Json.obj resultFields) "content"
          = some true := by
        show some (resultFields.any fun p => decide (p.1 = "content"))
          = some true
        cases hany : resultFields.any fun p => decide (p.1 = "content") with
        | false =>
            rw [(dictGetLast_eq_none_iff "content" resultFields).mpr hany]
              at hcontent
            cases hcontent
        | true => rfl
      have hfield : (Json.getField (Json.obj resultFields) "content").getD
          Json.null
          = Json.arr (texts.map (fun t : String =>
              Json.obj [("type", Json.str "text"), ("text", Json.str t)])) := by
        show (dictGetLast resultFields "content").getD Json.null = _
        rw [hcontent]
        rfl
      simp only [interpretCallResponse, herr, hres, hcont, hfield, pyIter,
        collectTexts_textItems]
    · intro resp resultFields herr hres hcontent
      rw [hguard]
      have hcont : pyContains (Json.obj resultFields) "content"
          = some false := by
        show some (resultFields.any fun p => decide (p.1 = "content"))
          = some false
        rw [(dictGetLast_eq_none_iff "content" resultFields).mp hcontent]
      simp only [interpretCallResponse, herr, hres, hcont]
    · intro resp herr hres
      rw [hguard]
      simp only [interpretCallResponse, herr, hres]
    · rw [hguard]
      rfl

/-- C3 witness: the concrete scenario — "add" on the connected calculator
returning a single text item "4". -/
theorem call_tool_interpretation_witness :
    exCalcConn.call_tool "add"
        (some (Json.obj [("jsonrpc", Json.str "2.0"),
                         ("id", Json.str "x"),
                         ("result", Json.obj [("content", Json.arr
                           [Json.obj [("type", Json.str "text"),
                                      ("text", Json.str "4")]])])]))
      = (true, "4") :=
  ((call_tool_interpretation exCalcConn "add").2 rfl ⟨exAddTool, rfl⟩).2.1
    (Json.obj [("jsonrpc", Json.str "2.0"),
               ("id", Json.str "x"),
               ("result", Json.obj [("content", Json.arr
                 [Json.obj [("type", Json.str "text"),
                            ("text", Json.str "4")]])])])
    [("content", Json.arr
       [Json.obj [("type", Json.str "text"), ("text", Json.str "4")]])]
    ["4"] rfl rfl rfl

/-- Encoded string lists decode back. -/
theorem decodeStrings_map (l : List String) :
    decodeStrings (l.map Json.str) = some l := by
  induction l with
  | nil => rfl
  | cons x l ih =>
      show (decodeStrings (l.map Json.str)).map _ = _
      rw [ih]
      rfl

/-- Encoded string maps decode back. -/
theorem decodePairs_map (l : List (String × String)) :
    decodePairs (l.map (fun p => (p.1, Json.str p.2))) = some l := by
  induction l with
  | nil => rfl
  | cons p l ih =>
      show (decodePairs (l.map _)).map (fun ps => (p.1, p.2) :: ps) = _
      rw [ih]
      simp

/-- The transport enum round-trips through its string value. -/
theorem ofValue_value (t : MCPTransportType) :
    MCPTransportType.ofValue t.value = some t := by
  cases t <;> rfl

/-- Optional string fields round-trip. -/
theorem decOptStr_encOptStr (u : Option String) :
    decOptStr (encOptStr u) = some u := by
  cases u <;> rfl

/-- `from_dict` inverts `to_dict` on every server configuration. -/
theorem from_dict_to_dict (c : MCPServerConfig) :
    MCPServerConfig.from_dict c.to_dict = some c := by
  obtain ⟨nm, cmd, args, env, tr, url, en, desc⟩ := c
  simp [MCPServerConfig.to_dict, MCPServerConfig.from_dict, dictGetLast,
    decStrList, decStrMap, decodeStrings_map, decodePairs_map,
    ofValue_value, decOptStr_encOptStr]

/-- The `servers` table of the export decodes entry by entry. -/
theorem decodeServerTable_map (servers : List (String × MCPServerConfig)) :
    decodeServerTable (servers.map (fun p => (p.1, p.2.to_dict)))
      = some servers := by
  induction servers with
  | nil => rfl
  | cons p servers ih =>
      simp [decodeServerTable, from_dict_to_dict, ih]

/-- C6: exporting the configuration set and re-importing it reproduces an
equivalent set of `MCPServerConfig` entries — the same name keys, and for
each entry the same name, command, args, env, transport kind and enabled
flag (indeed the identical record, url and description included). -/
theorem config_export_import_roundtrip
    (servers : List (String × MCPServerConfig)) :
    importConfig (exportConfig servers) = some servers := by
  show decodeServerTable (servers.map (fun p => (p.1, p.2.to_dict)))
    = some servers
  exact decodeServerTable_map servers

/-- `any` over a list is invariant under permutation. -/
theorem any_perm {α : Type} {l l' : List α} (h : l.Perm l') (f : α → Bool) :
    l.any f = l'.any f := by
  rw [Bool.eq_iff_iff]
  simp only [List.any_eq_true]
  constructor
  · rintro ⟨x, hx, hfx⟩
    exact ⟨x, h.mem_iff.mp hx, hfx⟩
  · rintro ⟨x, hx, hfx⟩
    exact ⟨x, h.mem_iff.mpr hx, hfx⟩

/-- First-match lookup succeeds exactly on the key set. -/
theorem dictGet_isSome_iff {α : Type} (d : List (String × α)) (k : String) :
    (dictGet d k).isSome = true ↔ k ∈ d.map Prod.fst := by
  induction d with
  | nil => simp [dictGet]
  | cons p d ih =>
      by_cases hp : p.1 = k
      · simp [dictGet, hp]
      · have : ¬ k = p.1 := fun h => hp h.symm
        simp [dictGet, hp, ih, this]

/-- C7: `has_capability` is true iff the lowercased topic is a known topic
(weather, math, search, filesystem, database, usda, food, nutrition) and
some tool name contains one of that topic's keyword patterns, or the topic
string itself is a substring of some tool name; it is case-insensitive in
the topic and the tool names (which are compared lowercased) and independent
of the order of the tool catalog. -/
theorem has_capability_spec (client : DynamicMCPClient) (capability : String) :
    (client.has_capability capability = true ↔
      (∃ patterns, dictGet capability_patterns capability.toLower
          = some patterns
        ∧ ∃ p ∈ client.available_tools, ∃ pat ∈ patterns,
            strContains p.1.toLower pat = true)
      ∨ ∃ p ∈ client.available_tools,
          strContains p.1.toLower capability.toLower = true)
    ∧ ((dictGet capability_patterns capability.toLower).isSome = true ↔
        capability.toLower ∈ ["weather", "math", "search", "filesystem",
          "database", "usda", "food", "nutrition"])
    ∧ (∀ tools', client.available_tools.Perm tools' →
        client.has_capability capability
          = ({ client with available_tools := tools' }).has_capability
              capability)
    ∧ (∀ c', c'.toLower = capability.toLower →
        client.has_capability c' = client.has_capability capability) := by
  refine ⟨?_, ?_, ?_, ?_⟩
  · simp only [DynamicMCPClient.has_capability]
    cases hd : dictGet capability_patterns capability.toLower with
    | none => simp [List.any_eq_true]
    | some patterns => simp [List.any_eq_true]
  · rw [dictGet_isSome_iff]
    exact Iff.rfl
  · intro tools' hperm
    simp only [DynamicMCPClient.has_capability]
    cases hd : dictGet capability_patterns capability.toLower with
    | none => simp only [any_perm hperm]
    | some patterns => simp only [any_perm hperm]
  · intro c' hc'
    simp only [DynamicMCPClient.has_capability, hc']

/-- C7 witness: order-independence at a concrete catalog, discharging the
permutation hypothesis. -/
theorem has_capability_spec_witness :
    exClient.has_capability "math"
      = ({ exClient with
            available_tools := [("sub", exSubTool), ("add", exAddTool)]
         }).has_capability "math" :=
  (has_capability_spec exClient "math").2.2.1
    [("sub", exSubTool), ("add", exAddTool)]
    (List.Perm.swap ("sub", exSubTool) ("add", exAddTool) [])

/-- A successful last-match lookup exhibits a member. -/
theorem dictGetLast_mem {α : Type} (l : List (String × α)) (k : String) (v : α)
    (h : dictGetLast l k = some v) : (k, v) ∈ l := by
  induction l with
  | nil => cases h
  | cons p l ih =>
      rw [dictGetLast_cons] at h
      cases hl : dictGetLast l k with
      | some w =>
          rw [hl] at h
          injection h with h
          subst h
          exact List.mem_cons_of_mem p (ih hl)
      | none =>
          rw [hl] at h
          by_cases hp : p.1 = k
          · rw [if_pos hp] at h
            injection h with h
            subst h
            rw [← hp]
            exact List.mem_cons_self p l
          · rw [if_neg hp] at h
            cases h

theorem initConnections_keys (servers : List ServerEntry) :
    (initConnections servers).map Prod.fst
      = (enabledServers servers).map (fun s => s.name) := by
  unfold initConnections
  rw [List.map_map]
  rfl

theorem enabled_names_nodup (servers : List ServerEntry)
    (h : (servers.map (fun s => s.name)).Nodup) :
    ((enabledServers servers).map (fun s => s.name)).Nodup :=
  List.Nodup.sublist
    (List.Sublist.map _ (List.filter_sublist servers)) h

/-- On a fresh registry the connection map `initialize` builds is exactly the
per-enabled-server connection list (server names are unique: the
configuration manager stores them in a dict). -/
theorem fresh_server_connections (servers : List ServerEntry)
    (h : (servers.map (fun s => s.name)).Nodup) :
    ((freshClient.initClient servers).1).server_connections
      = initConnections servers := by
  have hdef : ((freshClient.initClient servers).1).server_connections
      = dictUpdate [] (initConnections servers) := rfl
  rw [hdef, dictUpdate_append]
  · simp
  · simp
  · rw [initConnections_keys]
    exact enabled_names_nodup servers h

/-- On a fresh registry the aggregated catalog at any name is the last
contribution among the initialized connections. -/
theorem fresh_available_tools (servers : List ServerEntry)
    (h : (servers.map (fun s => s.name)).Nodup) (k : String) :
    dictGet ((freshClient.initClient servers).1).available_tools k
      = (lastToolContribution (initConnections servers) k).map Prod.snd := by
  have hdef : ((freshClient.initClient servers).1).available_tools
      = (((freshClient.initClient servers).1).server_connections).foldl
          (fun acc p =>
            if p.2.initialized then dictUpdate acc p.2.tools else acc)
          [] := rfl
  rw [hdef, fresh_server_connections servers h, aggTools_lookup]
  cases lastToolContribution (initConnections servers) k <;> rfl

/-- An "add" tool as discovered from server "alpha". -/
def exAlphaAdd : MCPTool :=
  { name := "add", description := "", inputSchema := Json.obj [],
    server_name := "alpha" }

/-- A colliding "add" tool as discovered from server "beta". -/
def exBetaAdd : MCPTool :=
  { name := "add", description := "", inputSchema := Json.obj [],
    server_name := "beta" }

/-- Two enabled servers whose tool names collide on "add". -/
def exCollisionServers : List ServerEntry :=
  [{ name := "alpha", enabled := true,
     outcome := { ok := true, tools := [("add", exAlphaAdd)],
                  resources := [] } },
   { name := "beta", enabled := true,
     outcome := { ok := true, tools := [("add", exBetaAdd)],
                  resources := [] } }]

/-- C4: the aggregated catalog a fresh `initialize` builds has exactly one
entry per tool name; the entry for a name is the one recorded last during
aggregation, drawn only from connections whose initialized flag is true; and
`execute_tool` on a colliding name routes to that last-recorded connection.
The hypothesis `hown` is the discovery invariant: every discovered tool
carries its server's config name as `server_name`. -/
theorem catalog_last_writer_wins (servers : List ServerEntry) (k : String)
    (hnodup : (servers.map (fun s => s.name)).Nodup)
    (hown : ∀ s ∈ servers, s.enabled = true →
      ∀ q ∈ s.outcome.tools, q.2.server_name = s.name) :
    ((((freshClient.initClient servers).1).available_tools).map
        Prod.fst).Nodup
    ∧ dictGet ((freshClient.initClient servers).1).available_tools k
        = (lastToolContribution (initConnections servers) k).map Prod.snd
    ∧ (∀ srv t,
        lastToolContribution (initConnections servers) k = some (srv, t) →
        ∃ conn,
          dictGet ((freshClient.initClient servers).1).server_connections srv
              = some conn
          ∧ conn.initialized = true
          ∧ ∀ response,
              ((freshClient.initClient servers).1).execute_tool k response
                = conn.call_tool k response) := by
  have hconnkeys : ((initConnections servers).map Prod.fst).Nodup := by
    rw [initConnections_keys]
    exact enabled_names_nodup servers hnodup
  refine ⟨?_, fresh_available_tools servers hnodup k, ?_⟩
  · have hdef : ((freshClient.initClient servers).1).available_tools
        = (dictUpdate [] (initConnections servers)).foldl
            (fun acc p =>
              if p.2.initialized then dictUpdate acc p.2.tools else acc)
            [] := rfl
    rw [hdef]
    exact nodup_keys_aggTools _ _ (by simp)
  · intro srv t hlast
    rcases lastToolContribution_mem _ _ _ _ hlast with ⟨p, hp, hp1, hp2, hp3⟩
    have hconn : dictGet
        ((freshClient.initClient servers).1).server_connections srv
        = some p.2 := by
      rw [fresh_server_connections servers hnodup]
      have := dictGet_of_mem_nodup _ hconnkeys p hp
      rwa [hp1] at this
    refine ⟨p.2, hconn, hp2, ?_⟩
    intro response
    rcases List.mem_map.mp hp with ⟨s, hs, hps⟩
    rcases List.mem_filter.mp hs with ⟨hs1, hs2⟩
    have hp1s : p.1 = s.name := by rw [← hps]
    have htsn : t.server_name = srv := by
      have htmem : (k, t) ∈ p.2.tools := dictGetLast_mem _ _ _ hp3
      have htools : p.2.tools = s.outcome.tools := by
        rw [← hps]
        rfl
      rw [htools] at htmem
      have hsn := hown s hs1 (by simpa using hs2) (k, t) htmem
      rw [hsn, ← hp1s]
      exact hp1
    have hcat : dictGet ((freshClient.initClient servers).1).available_tools k
        = some t := by
      rw [fresh_available_tools servers hnodup k, hlast]
      rfl
    unfold DynamicMCPClient.execute_tool
    simp only [hcat, htsn, hconn, hp2]
    rfl

/-- C4 witness: with "alpha" and "beta" both offering "add", the catalog
entry and the routing target are beta's, the connection recorded last. -/
theorem catalog_last_writer_wins_witness :
    dictGet ((freshClient.initClient exCollisionServers).1).available_tools
        "add" = some exBetaAdd
    ∧ ∃ conn,
        dictGet ((freshClient.initClient
            exCollisionServers).1).server_connections "beta" = some conn
        ∧ conn.initialized = true
        ∧ ∀ response,
            ((freshClient.initClient exCollisionServers).1).execute_tool
                "add" response
              = conn.call_tool "add" response := by
  have hnodup : (exCollisionServers.map (fun s => s.name)).Nodup := by
    simp [exCollisionServers]
  have hown : ∀ s ∈ exCollisionServers, s.enabled = true →
      ∀ q ∈ s.outcome.tools, q.2.server_name = s.name := by
    intro s hs _ q hq
    simp only [exCollisionServers, List.mem_cons, List.not_mem_nil,
      or_false] at hs
    rcases hs with hs | hs <;> subst hs <;>
      simp only [List.mem_cons, List.not_mem_nil, or_false] at hq <;>
      subst hq <;> rfl
  have h := catalog_last_writer_wins exCollisionServers "add" hnodup hown
  constructor
  · rw [h.2.1]
    rfl
  · exact h.2.2 "beta" exBetaAdd rfl

/-- A "mul" tool that only the failing server offers. -/
def exGammaMul : MCPTool :=
  { name := "mul", description := "", inputSchema := Json.obj [],
    server_name := "gamma" }

/-- The healthy "alpha" server entry. -/
def exAlphaServer : ServerEntry :=
  { name := "alpha", enabled := true,
    outcome := { ok := true, tools := [("add", exAlphaAdd)],
                 resources := [] } }

/-- The "gamma" server entry that fails to spawn. -/
def exGammaServer : ServerEntry :=
  { name := "gamma", enabled := true,
    outcome := { ok := false, tools := [("mul", exGammaMul)],
                 resources := [] } }

/-- The healthy "beta" server entry. -/
def exBetaServer : ServerEntry :=
  { name := "beta", enabled := true,
    outcome := { ok := true, tools := [("add", exBetaAdd)],
                 resources := [] } }

/-- Three enabled servers of which "gamma" fails to spawn. -/
def exPartialServers : List ServerEntry :=
  [exAlphaServer, exGammaServer, exBetaServer]

/-- C5: `initialize` attempts every enabled connection — each one ends up in
the connection map with its own outcome, regardless of its siblings —
returns true iff at least one attempt succeeded, aggregates into the catalog
only tools of connections that succeeded, and `execute_tool` for a name
offered only by failed servers returns a `(false, ...)` pair (the model is
total: nothing is raised). -/
theorem partial_failure_resilience (servers : List ServerEntry)
    (hnodup : (servers.map (fun s => s.name)).Nodup) :
    ((freshClient.initClient servers).2 = true ↔
      ∃ s ∈ servers, s.enabled = true ∧ s.outcome.ok = true)
    ∧ (∀ s ∈ servers, s.enabled = true →
        dictGet ((freshClient.initClient servers).1).server_connections s.name
          = some (runConnect s.name s.outcome))
    ∧ (∀ k t,
        dictGet ((freshClient.initClient servers).1).available_tools k
          = some t →
        ∃ s ∈ servers, s.enabled = true ∧ s.outcome.ok = true
          ∧ dictGetLast s.outcome.tools k = some t)
    ∧ (∀ k,
        (∀ s ∈ servers, s.enabled = true → s.outcome.ok = true →
          dictGetLast s.outcome.tools k = none) →
        ∀ response,
          ((freshClient.initClient servers).1).execute_tool k response
            = (false, "Tool " ++ k ++ " not found")) := by
  have hconnkeys : ((initConnections servers).map Prod.fst).Nodup := by
    rw [initConnections_keys]
    exact enabled_names_nodup servers hnodup
  refine ⟨?_, ?_, ?_, ?_⟩
  · have hret : (freshClient.initClient servers).2
        = decide (0 < ((enabledServers servers).filter
            (fun s => s.outcome.ok)).length) := rfl
    rw [hret]
    simp only [decide_eq_true_eq, List.length_pos_iff_exists_mem,
      List.mem_filter, enabledServers]
    constructor
    · rintro ⟨s, ⟨hs, he⟩, hok⟩
      exact ⟨s, hs, by simpa using he, by simpa using hok⟩
    · rintro ⟨s, hs, he, hok⟩
      exact ⟨s, ⟨hs, by simpa using he⟩, by simpa using hok⟩
  · intro s hs he
    rw [fresh_server_connections servers hnodup]
    have hmem : (s.name, runConnect s.name s.outcome)
        ∈ initConnections servers :=
      List.mem_map.mpr ⟨s, List.mem_filter.mpr ⟨hs, by simpa using he⟩, rfl⟩
    exact dictGet_of_mem_nodup _ hconnkeys _ hmem
  · intro k t hget
    rw [fresh_available_tools servers hnodup k] at hget
    cases hlast : lastToolContribution (initConnections servers) k with
    | none =>
        rw [hlast] at hget
        cases hget
    | some x =>
        rw [hlast] at hget
        injection hget with hget
        rcases lastToolContribution_mem _ _ x.1 x.2 (by rw [hlast]) with
          ⟨p, hp, hp1, hp2, hp3⟩
        rcases List.mem_map.mp hp with ⟨s, hs, hps⟩
        rcases List.mem_filter.mp hs with ⟨hs1, hs2⟩
        refine ⟨s, hs1, by simpa using hs2, ?_, ?_⟩
        · have hinit : p.2.initialized = s.outcome.ok := by
            rw [← hps]
            rfl
          rw [← hinit]
          exact hp2
        · have htools : p.2.tools = s.outcome.tools := by
            rw [← hps]
            rfl
          rw [← htools, hp3, hget]
  · intro k hnone response
    have hlast : lastToolContribution (initConnections servers) k = none := by
      cases hl : lastToolContribution (initConnections servers) k with
      | none => rfl
      | some x =>
          rcases lastToolContribution_mem _ _ x.1 x.2 (by rw [hl]) with
            ⟨p, hp, hp1, hp2, hp3⟩
          rcases List.mem_map.mp hp with ⟨s, hs, hps⟩
          rcases List.mem_filter.mp hs with ⟨hs1, hs2⟩
          have hok : s.outcome.ok = true := by
            have hinit : p.2.initialized = s.outcome.ok := by
              rw [← hps]
              rfl
            rw [← hinit]
            exact hp2
          have htools : p.2.tools = s.outcome.tools := by
            rw [← hps]
            rfl
          rw [htools, hnone s hs1 (by simpa using hs2) hok] at hp3
          cases hp3
    have hget : dictGet
        ((freshClient.initClient servers).1).available_tools k = none := by
      rw [fresh_available_tools servers hnodup k, hlast]
      rfl
    unfold DynamicMCPClient.execute_tool
    simp only [hget]

/-- C5 witness: three servers with "gamma" failing — initialize still
returns true, and a tool offered only by "gamma" is reported not found. -/
theorem partial_failure_resilience_witness :
    (freshClient.initClient exPartialServers).2 = true
    ∧ ((freshClient.initClient exPartialServers).1).execute_tool "mul" none
        = (false, "Tool mul not found") := by
  have hnodup : (exPartialServers.map (fun s => s.name)).Nodup := by
    simp [exPartialServers, exAlphaServer, exGammaServer, exBetaServer]
  have h := partial_failure_resilience exPartialServers hnodup
  constructor
  · exact h.1.mpr ⟨exAlphaServer, by simp [exPartialServers], rfl, rfl⟩
  · refine h.2.2.2 "mul" ?_ none
    intro s hs _ hok
    simp only [exPartialServers, List.mem_cons, List.not_mem_nil,
      or_false] at hs
    rcases hs with hs | hs | hs <;> subst hs
    · rfl
    · cases hok
    · rfl

end MCP
